import Mathlib

/-!
Shallow embedding of `src/mastodonBot.ts` (SpotifyBot).

The program maintains a JSON-backed list of playlist records, selects a
record with the lowest effective `posted_count` (absent treated as 0,
random tie-break), formats a status message, posts it to Mastodon, then
increments the selected record's counter and writes the store back.

External effects are made explicit parameters/results:
  * the random source `Math.random` becomes a function `rand : Nat → Nat`
    used as `candidates[rand candidates.length]?` — the JS expression
    `Math.floor(Math.random() * n)` always lies in `[0, n)`, captured by
    the hypothesis `∀ n, 0 < n → rand n < n` where needed;
  * the Mastodon call becomes a parameter `pub : Except Unit String`
    (error = the network call throws, ok = the returned status id);
  * the store write becomes a flag `writeSucceeds`; a failing write
    throws a `StoreWriteError` inside `incrementPostedCount`;
  * console logging is dropped; the data flow is kept.
-/

namespace SpotifyBot

/-- `interface PlaylistEntry` from the source: `posted_count` is optional. -/
structure PlaylistEntry where
  name : String
  uri : String
  imageUrl : String
  artistNames : List String
  posted_count : Option Nat
deriving DecidableEq, Repr, Inhabited

/-- `p.posted_count ?? 0`: the effective posted count, absent treated as 0. -/
def effectiveCount (p : PlaylistEntry) : Nat :=
  p.posted_count.getD 0

/-- `PlaylistDatabase.getLowestPostedCountPlaylist`: compute the minimum
effective count, filter the candidates achieving it, return the candidate at
the random index (`candidatePlaylists[Math.floor(Math.random()*len)] || null`).
For the empty collection `Math.min()` is `Infinity`, the filter is empty and
the indexing yields `null`; here `min?` is `none` and we return `none`. -/
def getLowestPostedCountPlaylist (playlists : List PlaylistEntry)
    (rand : Nat → Nat) : Option PlaylistEntry :=
  match (playlists.map effectiveCount).min? with
  | none => none
  | some m =>
    let candidates := playlists.filter fun p => effectiveCount p == m
    candidates.get? (rand candidates.length)

/-- The in-place mutation `playlist.posted_count = (playlist.posted_count ?? 0) + 1`
performed on the first record whose `uri` matches (JS `Array.prototype.find`). -/
def incrementFirst (uri : String) : List PlaylistEntry → List PlaylistEntry
  | [] => []
  | p :: ps =>
    if p.uri == uri then
      { p with posted_count := some (effectiveCount p + 1) } :: ps
    else
      p :: incrementFirst uri ps

/-- Outcome of `PlaylistDatabase.incrementPostedCount`: the in-memory list
after the call, whether `db.write()` was invoked, and whether that write
threw a `StoreWriteError`. -/
structure IncResult where
  db : List PlaylistEntry
  writeCalled : Bool
  failed : Bool
deriving DecidableEq, Repr

/-- `PlaylistDatabase.incrementPostedCount`: find the record by `uri`; if
found, increment its count in memory and call `db.write()` (which throws
when the write fails); if not found, do nothing and do not write. -/
def incrementPostedCount (playlists : List PlaylistEntry) (uri : String)
    (writeSucceeds : Bool) : IncResult :=
  match playlists.find? fun p => p.uri == uri with
  | none => ⟨playlists, false, false⟩
  | some _ => ⟨incrementFirst uri playlists, true, !writeSucceeds⟩

/-- The pattern `' Mix'` of `playlist.name.replace(' Mix', '')`. -/
def mixPat : List Char := " Mix".data

/-- JS `String.prototype.replace` with a string pattern and empty replacement:
remove the first occurrence of `pat`, leave the string unchanged when `pat`
does not occur. -/
def removeFirst (pat : List Char) : List Char → List Char
  | [] => []
  | c :: cs =>
    if (c :: cs).take pat.length = pat then (c :: cs).drop pat.length
    else c :: removeFirst pat cs

/-- `playlist.name.replace(' Mix', '')`. -/
def cleanName (name : String) : String :=
  String.mk (removeFirst mixPat name.data)

/-- Whether `pat` occurs as a contiguous subsequence (JS `includes`);
used to state what `removeFirst` does. -/
def containsSeq (pat : List Char) : List Char → Bool
  | [] => pat.isEmpty
  | c :: cs => ((c :: cs).take pat.length == pat) || containsSeq pat cs

/-- JS `uri.split(':')`: the maximal colon-free segments, empty segments
included (`"".split(':')` is `[""]`). -/
def splitOnColon : List Char → List (List Char)
  | [] => [[]]
  | c :: cs =>
    if c = ':' then [] :: splitOnColon cs
    else
      match splitOnColon cs with
      | [] => [[c]]
      | seg :: rest => (c :: seg) :: rest

/-- Lines 107–110 of the source: first three artists joined by `', '`, the
URL from the segment after the last `':'` of the uri (`split(':').pop()`),
the cleaned name, and the composed multi-line status text. -/
def formatStatus (playlist : PlaylistEntry) : String :=
  let artists := String.intercalate ", " (playlist.artistNames.take 3)
  let urlFromUri := "https://open.spotify.com/playlist/" ++
    String.mk ((splitOnColon playlist.uri.data).getLastD [])
  let cleanedName := cleanName playlist.name
  cleanedName ++ "\nFeaturing " ++ artists ++ "\n\n" ++ urlFromUri

/-- Errors that could escape a run. -/
inductive RunError
  | storeWriteError
  | storeUnavailable
deriving DecidableEq, Repr

/-- Observable outcome of one `postRandomPlaylist` run: the in-memory
collection, the persisted (on-disk) collection, whether the Publisher was
invoked, whether `db.write()` was invoked, whether an error was caught by
the `try/catch`, and the formatted status text (if formatting was reached). -/
structure RunResult where
  db : List PlaylistEntry
  persisted : List PlaylistEntry
  publishCalled : Bool
  writeCalled : Bool
  caughtError : Bool
  statusText : Option String
deriving DecidableEq, Repr

/-- `PlaylistBot.postRandomPlaylist`, after `db.read()` loaded `store`.
The `try { createStatus; incrementPostedCount } catch { log }` block catches
every error raised by the publish call or by the store write, so the
function never lets an error escape; the `Except` result records whether
one would. -/
def postRandomPlaylist (store : List PlaylistEntry) (rand : Nat → Nat)
    (pub : Except Unit String) (writeSucceeds : Bool) (dryRun : Bool) :
    Except RunError RunResult :=
  match getLowestPostedCountPlaylist store rand with
  | none => .ok ⟨store, store, false, false, false, none⟩
  | some playlist =>
    let statusText := formatStatus playlist
    if dryRun then
      .ok ⟨store, store, false, false, false, some statusText⟩
    else
      match pub with
      | .error _ => .ok ⟨store, store, true, false, true, some statusText⟩
      | .ok _ =>
        let inc := incrementPostedCount store playlist.uri writeSucceeds
        if inc.failed then
          .ok ⟨inc.db, store, true, inc.writeCalled, true, some statusText⟩
        else
          .ok ⟨inc.db, if inc.writeCalled then inc.db else store,
               true, inc.writeCalled, false, some statusText⟩

/-- The in-memory collection after one run (used to iterate runs). -/
def runStep (rand : Nat → Nat) (pub : Except Unit String)
    (writeSucceeds dryRun : Bool) (store : List PlaylistEntry) :
    List PlaylistEntry :=
  match postRandomPlaylist store rand pub writeSucceeds dryRun with
  | .ok r => r.db
  | .error _ => store

/-! ### Concrete records used in the scenarios -/

/-- Scenario A, record `{uri:"a", postedCount:2}`. -/
def recA : PlaylistEntry := ⟨"", "a", "", [], some 2⟩

/-- Scenario A, record `{uri:"b"}` (absent count). -/
def recB : PlaylistEntry := ⟨"", "b", "", [], none⟩

/-- Scenario A, record `{uri:"c", postedCount:1}`. -/
def recC : PlaylistEntry := ⟨"", "c", "", [], some 1⟩

/-- Scenario A collection. -/
def scenA : List PlaylistEntry := [recA, recB, recC]

/-- Scenario D record. -/
def focusRecord : PlaylistEntry :=
  ⟨"Focus Mix", "spotify:playlist:XYZ", "", ["A", "B", "C", "D"], none⟩

/-- A one-record store used for concrete runs. -/
def exStore : List PlaylistEntry := [⟨"N", "u:1", "", ["A"], some 0⟩]

/-- A two-record store with distinct uris; the second record has the
minimal (absent) count. -/
def exStore2 : List PlaylistEntry :=
  [⟨"A", "u:a", "", [], some 2⟩, ⟨"B", "u:b", "", [], none⟩]

/-! ### Selection lemmas -/

/-- Whatever the random index, a returned record is a member of the
collection with minimal effective count. -/
theorem select_spec {playlists : List PlaylistEntry} {rand : Nat → Nat}
    {p : PlaylistEntry}
    (h : getLowestPostedCountPlaylist playlists rand = some p) :
    p ∈ playlists ∧ ∀ q ∈ playlists, effectiveCount p ≤ effectiveCount q := by
  unfold getLowestPostedCountPlaylist at h
  split at h
  · exact absurd h (by simp)
  · rename_i m hmin
    have hmem : p ∈ playlists.filter fun q => effectiveCount q == m :=
      List.get?_mem h
    have hfil := List.mem_filter.mp hmem
    have hpm : effectiveCount p = m := by
      have := hfil.2
      simpa using this
    have hm := List.min?_eq_some_iff'.mp hmin
    refine ⟨hfil.1, fun q hq => ?_⟩
    rw [hpm]
    exact hm.2 _ (List.mem_map_of_mem effectiveCount hq)

/-- On a non-empty collection, selection succeeds whenever the random
index is in range (as `Math.floor(Math.random()*n)` always is). -/
theorem select_total {playlists : List PlaylistEntry} {rand : Nat → Nat}
    (hne : playlists ≠ [])
    (hrand : ∀ n, 0 < n → rand n < n) :
    ∃ p, getLowestPostedCountPlaylist playlists rand = some p := by
  have hmapne : playlists.map effectiveCount ≠ [] := by
    simpa using hne
  have hmin : (playlists.map effectiveCount).min? ≠ none := by
    simpa [List.min?_eq_none_iff] using hmapne
  obtain ⟨m, hm⟩ := Option.ne_none_iff_exists'.mp hmin
  have hmm := List.min?_eq_some_iff'.mp hm
  obtain ⟨q, hq, hqm⟩ := List.mem_map.mp hmm.1
  have hqc : q ∈ playlists.filter fun x => effectiveCount x == m :=
    List.mem_filter.mpr ⟨hq, by simp [hqm]⟩
  have hlen : 0 < (playlists.filter fun x => effectiveCount x == m).length :=
    List.length_pos.mpr (List.ne_nil_of_mem hqc)
  have hlt := hrand _ hlen
  refine ⟨(playlists.filter fun x => effectiveCount x == m).get ⟨_, hlt⟩, ?_⟩
  unfold getLowestPostedCountPlaylist
  rw [hm]
  exact List.get?_eq_get hlt

/-! ### Increment lemmas -/

/-- Incrementing never changes the number of records. -/
theorem incrementFirst_length (u : String) :
    ∀ store : List PlaylistEntry, (incrementFirst u store).length = store.length
  | [] => rfl
  | p :: ps => by
    unfold incrementFirst
    by_cases h : (p.uri == u) = true
    · simp [h]
    · simp only [Bool.not_eq_true] at h
      simp [h, incrementFirst_length u ps]

/-- Every record's effective count is monotone under an increment. -/
theorem incrementFirst_getD_le (u : String) (d : PlaylistEntry) :
    ∀ (store : List PlaylistEntry) (j : Nat),
      effectiveCount (store.getD j d) ≤
        effectiveCount ((incrementFirst u store).getD j d)
  | [], _ => Nat.le_refl _
  | p :: ps, j => by
    unfold incrementFirst
    by_cases h : (p.uri == u) = true
    · simp only [h, if_true]
      cases j with
      | zero => simp [effectiveCount]
      | succ k => simp
    · simp only [Bool.not_eq_true] at h
      simp only [h, Bool.false_eq_true, if_false]
      cases j with
      | zero => simp
      | succ k =>
        simp only [List.getD_cons_succ]
        exact incrementFirst_getD_le u d ps k

/-- At most one position is changed by an increment. -/
theorem incrementFirst_changes_one (u : String) (d : PlaylistEntry) :
    ∀ store : List PlaylistEntry,
      ∃ k, ∀ j, j ≠ k →
        (incrementFirst u store).getD j d = store.getD j d
  | [] => ⟨0, fun _ _ => rfl⟩
  | p :: ps => by
    unfold incrementFirst
    by_cases h : (p.uri == u) = true
    · refine ⟨0, fun j hj => ?_⟩
      simp only [h, if_true]
      cases j with
      | zero => exact absurd rfl hj
      | succ k => simp
    · simp only [Bool.not_eq_true] at h
      obtain ⟨k, hk⟩ := incrementFirst_changes_one u d ps
      refine ⟨k + 1, fun j hj => ?_⟩
      simp only [h, Bool.false_eq_true, if_false]
      cases j with
      | zero => simp
      | succ i =>
        simp only [List.getD_cons_succ]
        exact hk i (by omega)

/-- When uris are unique and `p` is a member, incrementing at `p.uri`
changes exactly the position of `p`, bumping its count by one. -/
theorem incrementFirst_spec (d p : PlaylistEntry) :
    ∀ store : List PlaylistEntry,
      store.Pairwise (fun a b => a.uri ≠ b.uri) → p ∈ store →
      ∃ i, i < store.length ∧ store.getD i d = p ∧
        (incrementFirst p.uri store).getD i d =
          { p with posted_count := some (effectiveCount p + 1) } ∧
        ∀ j, j ≠ i → (incrementFirst p.uri store).getD j d = store.getD j d
  | [], _, hp => absurd hp (List.not_mem_nil p)
  | q :: qs, hu, hp => by
    rcases List.mem_cons.mp hp with hqp | hp'
    · subst hqp
      refine ⟨0, Nat.succ_pos _, rfl, ?_, fun j hj => ?_⟩
      · unfold incrementFirst
        simp
      · unfold incrementFirst
        cases j with
        | zero => exact absurd rfl hj
        | succ k => simp
    · have hne : q.uri ≠ p.uri := (List.pairwise_cons.mp hu).1 p hp'
      have hbe : (q.uri == p.uri) = false := beq_eq_false_iff_ne.mpr hne
      obtain ⟨i, hi, hgi, hbump, hother⟩ :=
        incrementFirst_spec d p qs (List.pairwise_cons.mp hu).2 hp'
      refine ⟨i + 1, by simpa using hi, by simpa using hgi, ?_, fun j hj => ?_⟩
      · unfold incrementFirst
        simp only [hbe, Bool.false_eq_true, if_false, List.getD_cons_succ]
        exact hbump
      · unfold incrementFirst
        simp only [hbe, Bool.false_eq_true, if_false]
        cases j with
        | zero => simp
        | succ k =>
          simp only [List.getD_cons_succ]
          exact hother k (by omega)

/-! ### One-run lemmas -/

/-- One run either leaves the in-memory collection unchanged or performs a
single increment. -/
theorem runStep_eq_or (rand : Nat → Nat) (pub : Except Unit String)
    (ws dry : Bool) (store : List PlaylistEntry) :
    runStep rand pub ws dry store = store ∨
    ∃ u, runStep rand pub ws dry store = incrementFirst u store := by
  cases hsel : getLowestPostedCountPlaylist store rand with
  | none => left; simp [runStep, postRandomPlaylist, hsel]
  | some p =>
    cases dry with
    | true => left; simp [runStep, postRandomPlaylist, hsel]
    | false =>
      cases pub with
      | error e => left; simp [runStep, postRandomPlaylist, hsel]
      | ok sid =>
        cases hfind : store.find? fun x => x.uri == p.uri with
        | none =>
          left
          simp [runStep, postRandomPlaylist, hsel, incrementPostedCount, hfind]
        | some q =>
          right
          refine ⟨p.uri, ?_⟩
          cases ws <;>
            simp [runStep, postRandomPlaylist, hsel, incrementPostedCount, hfind]

/-- One run never changes the number of records. -/
theorem runStep_length (rand : Nat → Nat) (pub : Except Unit String)
    (ws dry : Bool) (store : List PlaylistEntry) :
    (runStep rand pub ws dry store).length = store.length := by
  rcases runStep_eq_or rand pub ws dry store with h | ⟨u, h⟩
  · rw [h]
  · rw [h, incrementFirst_length]

/-! ### `replace` lemmas -/

/-- When the pattern does not occur, `replace` leaves the string unchanged. -/
theorem removeFirst_of_not_contains (pat : List Char) :
    ∀ s : List Char, containsSeq pat s = false → removeFirst pat s = s
  | [], _ => rfl
  | c :: cs, h => by
    unfold containsSeq at h
    rw [Bool.or_eq_false_iff] at h
    have h1 : (c :: cs).take pat.length ≠ pat := beq_eq_false_iff_ne.mp h.1
    unfold removeFirst
    rw [if_neg h1, removeFirst_of_not_contains pat cs h.2]

/-- When the pattern occurs, `replace` deletes exactly its first
occurrence: the string splits as `a ++ pat ++ b` where no occurrence of
`pat` starts inside `a`, and the result is `a ++ b`. -/
theorem removeFirst_of_contains (pat : List Char) :
    ∀ s : List Char, containsSeq pat s = true →
      ∃ a b, s = a ++ pat ++ b ∧ removeFirst pat s = a ++ b ∧
        ∀ i, i < a.length → (s.drop i).take pat.length ≠ pat
  | [], h => by
    have hpat : pat = [] := by simpa [containsSeq, List.isEmpty_iff] using h
    exact ⟨[], [], by simp [hpat], rfl, fun i hi => absurd hi (by simp)⟩
  | c :: cs, h => by
    by_cases htake : (c :: cs).take pat.length = pat
    · refine ⟨[], (c :: cs).drop pat.length, ?_, ?_, fun i hi => absurd hi (by simp)⟩
      · conv_lhs => rw [← List.take_append_drop pat.length (c :: cs)]
        rw [htake]
        simp
      · unfold removeFirst
        rw [if_pos htake]
        simp
    · have h2 : containsSeq pat cs = true := by
        unfold containsSeq at h
        rcases Bool.or_eq_true_iff.mp h with h1 | h2
        · exact absurd (by simpa using h1) htake
        · exact h2
      obtain ⟨a, b, ha, hb, hfirst⟩ := removeFirst_of_contains pat cs h2
      refine ⟨c :: a, b, by simp [ha], ?_, fun i hi => ?_⟩
      · unfold removeFirst
        rw [if_neg htake, hb]
        rfl
      · cases i with
        | zero => simpa using htake
        | succ j =>
          simp only [List.drop_succ_cons]
          exact hfirst j (by simpa using hi)

/-! ### Claim theorems -/

/-- Claim C1: on any non-empty collection, for any in-range random source,
`getLowestPostedCountPlaylist` returns a member whose effective count is
minimal over the collection; on Scenario A it returns the record with
uri `"b"` for every choice of the random source. -/
theorem C1_select_min (playlists : List PlaylistEntry) (rand : Nat → Nat)
    (hne : playlists ≠ []) (hrand : ∀ n, 0 < n → rand n < n) :
    (∃ p, getLowestPostedCountPlaylist playlists rand = some p ∧
      p ∈ playlists ∧ ∀ q ∈ playlists, effectiveCount p ≤ effectiveCount q) ∧
    getLowestPostedCountPlaylist scenA rand = some recB := by
  constructor
  · obtain ⟨p, hp⟩ := select_total hne hrand
    exact ⟨p, hp, (select_spec hp).1, (select_spec hp).2⟩
  · have h1 : rand 1 = 0 := Nat.lt_one_iff.mp (hrand 1 Nat.one_pos)
    have heq : getLowestPostedCountPlaylist scenA rand =
        [recB].get? (rand 1) := rfl
    rw [heq, h1]
    rfl

/-- Witness for C1 at Scenario A with the random source constantly 0. -/
theorem C1_select_min_witness :
    scenA ≠ [] ∧
    ((∃ p, getLowestPostedCountPlaylist scenA (fun _ => 0) = some p ∧
      p ∈ scenA ∧ ∀ q ∈ scenA, effectiveCount p ≤ effectiveCount q) ∧
    getLowestPostedCountPlaylist scenA (fun _ => 0) = some recB) :=
  ⟨by decide, C1_select_min scenA (fun _ => 0) (by decide) (fun _ hn => hn)⟩

/-- Claim C2 counterexample: with a successful publish and a failing store
write, `postRandomPlaylist` returns `Except.ok` with `caughtError = true` —
the `StoreWriteError` was caught by the orchestrator's `try/catch` and does
not propagate to the top level as the claim states. -/
theorem C2_counterexample :
    postRandomPlaylist exStore (fun _ => 0) (Except.ok "1") false false =
      Except.ok ⟨[⟨"N", "u:1", "", ["A"], some 1⟩], exStore, true, true, true,
        some "N\nFeaturing A\n\nhttps://open.spotify.com/playlist/1"⟩ ∧
    (postRandomPlaylist exStore (fun _ => 0) (Except.ok "1") false
      false).isOk = true :=
  ⟨rfl, rfl⟩

/-- Claim C2 amended: after a successful publish, a failing store write is
caught by the orchestrator's `try/catch` (logged, not re-raised): the run
completes normally with no unhandled failure, the write was attempted, and
the persisted state stays unchanged. -/
theorem C2_amended_write_failure_caught (store : List PlaylistEntry)
    (rand : Nat → Nat) (p : PlaylistEntry) (sid : String)
    (h : getLowestPostedCountPlaylist store rand = some p) :
    ∃ r, postRandomPlaylist store rand (Except.ok sid) false false =
        Except.ok r ∧
      r.caughtError = true ∧ r.writeCalled = true ∧ r.persisted = store := by
  have hp : p ∈ store := (select_spec h).1
  have hsome : (store.find? fun x => x.uri == p.uri).isSome :=
    List.find?_isSome.mpr ⟨p, hp, by simp⟩
  obtain ⟨q, hq⟩ := Option.isSome_iff_exists.mp hsome
  exact ⟨⟨incrementFirst p.uri store, store, true, true, true,
    some (formatStatus p)⟩,
    by simp [postRandomPlaylist, h, incrementPostedCount, hq], rfl, rfl, rfl⟩

/-- Witness for the amended C2 on a concrete one-record store. -/
theorem C2_amended_witness :
    getLowestPostedCountPlaylist exStore (fun _ => 0) =
      some ⟨"N", "u:1", "", ["A"], some 0⟩ ∧
    ∃ r, postRandomPlaylist exStore (fun _ => 0) (Except.ok "1") false false =
        Except.ok r ∧
      r.caughtError = true ∧ r.writeCalled = true ∧ r.persisted = exStore :=
  ⟨rfl, C2_amended_write_failure_caught exStore (fun _ => 0) _ "1" rfl⟩

/-- Claim C3: when the Publisher call throws, `postRandomPlaylist` completes
normally, the collection (hence every record's count) is unchanged, and the
store write is never invoked, so the persisted state equals the initial one. -/
theorem C3_publish_failure_no_mutation (store : List PlaylistEntry)
    (rand : Nat → Nat) (ws : Bool) :
    ∃ r, postRandomPlaylist store rand (Except.error ()) ws false =
        Except.ok r ∧
      r.db = store ∧ r.persisted = store ∧ r.writeCalled = false := by
  cases hsel : getLowestPostedCountPlaylist store rand with
  | none =>
    exact ⟨⟨store, store, false, false, false, none⟩,
      by simp [postRandomPlaylist, hsel], rfl, rfl, rfl⟩
  | some p =>
    exact ⟨⟨store, store, true, false, true, some (formatStatus p)⟩,
      by simp [postRandomPlaylist, hsel], rfl, rfl, rfl⟩

/-- Claim C4: with unique uris, after a successful publish the run
increments exactly the selected record's count by one (absent treated as 0),
leaves every other position unchanged, and unconditionally invokes the
store write; when the write succeeds the persisted collection is the
updated one. -/
theorem C4_publish_success_increment (store : List PlaylistEntry)
    (rand : Nat → Nat) (p : PlaylistEntry) (sid : String) (ws : Bool)
    (d : PlaylistEntry)
    (hu : store.Pairwise fun a b => a.uri ≠ b.uri)
    (h : getLowestPostedCountPlaylist store rand = some p) :
    ∃ r i, postRandomPlaylist store rand (Except.ok sid) ws false =
        Except.ok r ∧
      r.writeCalled = true ∧
      r.db.length = store.length ∧
      i < store.length ∧ store.getD i d = p ∧
      r.db.getD i d = { p with posted_count := some (effectiveCount p + 1) } ∧
      (∀ j, j ≠ i → r.db.getD j d = store.getD j d) ∧
      (ws = true → r.persisted = r.db) := by
  have hp : p ∈ store := (select_spec h).1
  have hsome : (store.find? fun x => x.uri == p.uri).isSome :=
    List.find?_isSome.mpr ⟨p, hp, by simp⟩
  obtain ⟨q, hq⟩ := Option.isSome_iff_exists.mp hsome
  obtain ⟨i, hi, hgi, hbump, hother⟩ := incrementFirst_spec d p store hu hp
  cases ws with
  | true =>
    refine ⟨⟨incrementFirst p.uri store, incrementFirst p.uri store, true,
      true, false, some (formatStatus p)⟩, i, ?_, rfl,
      incrementFirst_length p.uri store, hi, hgi, hbump, hother,
      fun _ => rfl⟩
    simp [postRandomPlaylist, h, incrementPostedCount, hq]
  | false =>
    refine ⟨⟨incrementFirst p.uri store, store, true, true, true,
      some (formatStatus p)⟩, i, ?_, rfl,
      incrementFirst_length p.uri store, hi, hgi, hbump, hother,
      fun hws => absurd hws Bool.false_ne_true⟩
    simp [postRandomPlaylist, h, incrementPostedCount, hq]

/-- Witness for C4 on a concrete two-record store with distinct uris. -/
theorem C4_witness :
    exStore2.Pairwise (fun a b => a.uri ≠ b.uri) ∧
    getLowestPostedCountPlaylist exStore2 (fun _ => 0) =
      some ⟨"B", "u:b", "", [], none⟩ ∧
    ∃ r i, postRandomPlaylist exStore2 (fun _ => 0) (Except.ok "1") true
        false = Except.ok r ∧
      r.writeCalled = true ∧
      r.db.length = exStore2.length ∧
      i < exStore2.length ∧
      exStore2.getD i default = ⟨"B", "u:b", "", [], none⟩ ∧
      r.db.getD i default =
        { (⟨"B", "u:b", "", [], none⟩ : PlaylistEntry) with
          posted_count :=
            some (effectiveCount ⟨"B", "u:b", "", [], none⟩ + 1) } ∧
      (∀ j, j ≠ i → r.db.getD j default = exStore2.getD j default) ∧
      (true = true → r.persisted = r.db) :=
  ⟨by decide, rfl, C4_publish_success_increment exStore2 (fun _ => 0) _ "1"
    true default (by decide) rfl⟩

/-- Claim C5: dry-run never publishes, never increments and never writes;
iterating dry-runs any number of times leaves the collection and the
persisted state equal to the initial contents. -/
theorem C5_dry_run_pure (store : List PlaylistEntry) (rand : Nat → Nat)
    (pub : Except Unit String) (ws : Bool) (n : Nat) :
    (∃ r, postRandomPlaylist store rand pub ws true = Except.ok r ∧
      r.db = store ∧ r.persisted = store ∧ r.publishCalled = false ∧
      r.writeCalled = false) ∧
    (runStep rand pub ws true)^[n] store = store := by
  have hone : ∀ s : List PlaylistEntry,
      ∃ r, postRandomPlaylist s rand pub ws true = Except.ok r ∧
        r.db = s ∧ r.persisted = s ∧ r.publishCalled = false ∧
        r.writeCalled = false := by
    intro s
    cases hsel : getLowestPostedCountPlaylist s rand with
    | none =>
      exact ⟨⟨s, s, false, false, false, none⟩,
        by simp [postRandomPlaylist, hsel], rfl, rfl, rfl, rfl⟩
    | some p =>
      exact ⟨⟨s, s, false, false, false, some (formatStatus p)⟩,
        by simp [postRandomPlaylist, hsel], rfl, rfl, rfl, rfl⟩
  have hstep : ∀ s : List PlaylistEntry, runStep rand pub ws true s = s := by
    intro s
    obtain ⟨r, hr, hdb, -, -, -⟩ := hone s
    unfold runStep
    rw [hr]
    exact hdb
  refine ⟨hone store, ?_⟩
  induction n with
  | zero => rfl
  | succ k ih => rw [Function.iterate_succ_apply', ih, hstep]

/-- Claim C6 counterexample: `"Chill Mix Tape"` does not end in `" Mix"`,
yet the cleaning step changes it (JS `replace(' Mix','')` deletes the first
occurrence anywhere, not only a trailing suffix). -/
theorem C6_counterexample :
    mixPat.isSuffixOf "Chill Mix Tape".data = false ∧
    cleanName "Chill Mix Tape" = "Chill Tape" ∧
    cleanName "Chill Mix Tape" ≠ "Chill Mix Tape" :=
  ⟨by decide, by decide, by decide⟩

/-- Claim C6 amended: the cleaning step deletes the first occurrence of the
substring `" Mix"` anywhere in the name (exact case); a name in which
`" Mix"` does not occur is unchanged. -/
theorem C6_amended_first_occurrence (s : List Char) :
    cleanName (String.mk s) = String.mk (removeFirst mixPat s) ∧
    (containsSeq mixPat s = false → removeFirst mixPat s = s) ∧
    (containsSeq mixPat s = true →
      ∃ a b, s = a ++ mixPat ++ b ∧ removeFirst mixPat s = a ++ b ∧
        ∀ i, i < a.length → (s.drop i).take mixPat.length ≠ mixPat) :=
  ⟨rfl, removeFirst_of_not_contains mixPat s, removeFirst_of_contains mixPat s⟩

/-- Witness for the amended C6 on the name `"A Mix B Mix"`, whose first
`" Mix"` occurrence is not the trailing one. -/
theorem C6_amended_witness :
    containsSeq mixPat "A Mix B Mix".data = true ∧
    ∃ a b, "A Mix B Mix".data = a ++ mixPat ++ b ∧
      removeFirst mixPat "A Mix B Mix".data = a ++ b ∧
      ∀ i, i < a.length →
        ("A Mix B Mix".data.drop i).take mixPat.length ≠ mixPat :=
  ⟨by decide, (C6_amended_first_occurrence "A Mix B Mix".data).2.2 (by decide)⟩

/-- Claim C7 (Scenario D): the formatted message for the `"Focus Mix"`
record cleans the name to `"Focus"`, joins only the first three artists as
`"A, B, C"`, ends in `/XYZ`, and equals the expected full message. -/
theorem C7_scenario_d :
    formatStatus focusRecord =
      "Focus\nFeaturing A, B, C\n\nhttps://open.spotify.com/playlist/XYZ" ∧
    cleanName focusRecord.name = "Focus" ∧
    String.intercalate ", " (focusRecord.artistNames.take 3) = "A, B, C" ∧
    ("/XYZ".data).isSuffixOf (formatStatus focusRecord).data = true :=
  ⟨by decide, by decide, by decide, by decide⟩

/-- Claim C8: on the empty collection the selector returns `none` and the
orchestrator run is a normal no-op: no publish, no increment, no write,
no error. -/
theorem C8_empty_noop (rand : Nat → Nat) (pub : Except Unit String)
    (ws dry : Bool) :
    getLowestPostedCountPlaylist [] rand = none ∧
    postRandomPlaylist [] rand pub ws dry =
      Except.ok ⟨[], [], false, false, false, none⟩ :=
  ⟨rfl, rfl⟩

/-- Claim C9: effective counts are non-negative; across any number of
selection+increment cycles the collection keeps the same number of records,
every position's effective count is monotonically non-decreasing, and each
cycle changes at most one position. -/
theorem C9_counts_monotone (rand : Nat → Nat) (pub : Except Unit String)
    (ws dry : Bool) (store : List PlaylistEntry) (n j : Nat)
    (d : PlaylistEntry) :
    0 ≤ effectiveCount (((runStep rand pub ws dry)^[n] store).getD j d) ∧
    ((runStep rand pub ws dry)^[n] store).length = store.length ∧
    effectiveCount (((runStep rand pub ws dry)^[n] store).getD j d) ≤
      effectiveCount (((runStep rand pub ws dry)^[n + 1] store).getD j d) ∧
    ∃ k, ∀ i, i ≠ k →
      ((runStep rand pub ws dry)^[n + 1] store).getD i d =
        ((runStep rand pub ws dry)^[n] store).getD i d := by
  have hlen : ∀ m : Nat,
      ((runStep rand pub ws dry)^[m] store).length = store.length := by
    intro m
    induction m with
    | zero => rfl
    | succ k ih => rw [Function.iterate_succ_apply', runStep_length, ih]
  refine ⟨Nat.zero_le _, hlen n, ?_, ?_⟩
  · rw [Function.iterate_succ_apply']
    rcases runStep_eq_or rand pub ws dry ((runStep rand pub ws dry)^[n] store)
      with heq | ⟨u, heq⟩
    · rw [heq]
    · rw [heq]
      exact incrementFirst_getD_le u d _ j
  · rw [Function.iterate_succ_apply']
    rcases runStep_eq_or rand pub ws dry ((runStep rand pub ws dry)^[n] store)
      with heq | ⟨u, heq⟩
    · exact ⟨0, fun i _ => by rw [heq]⟩
    · obtain ⟨k, hk⟩ := incrementFirst_changes_one u d
        ((runStep rand pub ws dry)^[n] store)
      exact ⟨k, fun i hik => by rw [heq]; exact hk i hik⟩

/-- Claim C10: when no record's uri matches, `incrementPostedCount` is a
no-op: the collection is unchanged and the store write is not performed. -/
theorem C10_increment_missing_noop (playlists : List PlaylistEntry)
    (uri : String) (ws : Bool)
    (h : ∀ p ∈ playlists, p.uri ≠ uri) :
    incrementPostedCount playlists uri ws = ⟨playlists, false, false⟩ := by
  have hf : (playlists.find? fun p => p.uri == uri) = none := by
    rw [List.find?_eq_none]
    intro p hp
    simp [h p hp]
  simp [incrementPostedCount, hf]

/-- Witness for C10 with a uri matching no record. -/
theorem C10_witness :
    (∀ p ∈ exStore, p.uri ≠ "zzz") ∧
    incrementPostedCount exStore "zzz" true = ⟨exStore, false, false⟩ :=
  ⟨by decide, C10_increment_missing_noop exStore "zzz" true (by decide)⟩

end SpotifyBot
